import Mathlib

/-!
Verification development for the mongo-test HTTP-to-MongoDB proxy
(`src/server.js`).  The server keeps a bounded, insertion-ordered cache of
MongoDB client connections keyed by connection string (`clientCache`, a JS
`Map` whose iteration order is insertion order), and exposes HTTP handlers
`POST /mongo/<op>` that validate the JSON body, acquire a client through
`getClientForUri`, run the backend operation, and translate errors.

The embedding below models:
  * the cache (`ClientCache`) as an insertion-ordered association list from
    connection-string keys to promise identifiers, plus a counter of
    connection attempts (each `new MongoClient` / `client.connect()` pair
    allocates a fresh promise id);
  * `getClientForUri` (lines 9-42) as a function returning either a thrown
    error or the cached/new promise id, the updated cache, and a flag telling
    whether a new connection attempt was started;
  * promise settlement as an external assignment `resolve : Nat → Except
    ErrObj Unit` (the stored promise object never changes; only its outcome
    is observed by `await`), and backend operations likewise as external
    functions returning `Except ErrObj _`;
  * the request handlers for `findOne` and `find` and the shared catch-block
    logic of all seven `/mongo/<op>` routes.
-/

namespace MongoTest

/-- Character-list prefix test, structurally recursive so that it evaluates
inside the kernel. -/
def charsPrefix : List Char → List Char → Bool
  | [], _ => true
  | _ :: _, [] => false
  | p :: ps, c :: cs => p == c && charsPrefix ps cs

/-- JavaScript's `s.startsWith(pre)`: `pre` is a prefix of `s`. -/
def strStartsWith (s pre : String) : Bool := charsPrefix pre.data s.data

/-- Capacity bound of the client cache (`MAX_CACHED_CLIENTS = 50`, line 7). -/
def MAX_CACHED_CLIENTS : Nat := 50

/-- State of the module-level `clientCache` `Map` (line 6).  `entries` lists
`(key, promise id)` pairs in insertion order, exactly as a JS `Map` iterates
them; `nextId` is the next fresh promise id, so the number of connection
attempts ever started is `nextId`. -/
structure ClientCache where
  entries : List (String × Nat)
  nextId : Nat
deriving DecidableEq, Repr

/-- The empty cache at server startup (`new Map()`, line 6). -/
def initCache : ClientCache := ⟨[], 0⟩

/-- The `Map.get`/`Map.has` lookup: first entry whose key equals `key`.
Keys are unique in every state our operations build, as in a JS `Map`. -/
def lookupEntry : List (String × Nat) → String → Option Nat
  | [], _ => none
  | (k, v) :: rest, key => if k = key then some v else lookupEntry rest key

/-- Errors thrown synchronously by `getClientForUri` (lines 10-20):
`Missing mongodbUri` for a falsy/non-string argument, and the scheme error
for a string not starting with an accepted scheme. -/
inductive AcquireErr where
  | missingUri
  | badScheme
deriving DecidableEq, Repr

/-- Shallow embedding of `getClientForUri` (lines 9-42).

Returns `.error` for the two thrown validation errors and otherwise
`.ok (pid, st', started)` where `pid` is the promise id returned to the
caller (`clientCache.get(mongodbUri)`), `st'` the cache afterwards, and
`started` tells whether a `new MongoClient`/`client.connect()` attempt was
begun.  On a miss with `size >= MAX_CACHED_CLIENTS` the oldest-inserted
entry — the first key of the `Map` — is deleted (lines 23-27); the new entry
is then set at the newest position with the pending promise stored
immediately, before the connection resolves (lines 28-38).  Nothing in the
source ever removes an entry when its connection promise later rejects. -/
def getClientForUri (st : ClientCache) (uri : String) :
    Except AcquireErr (Nat × ClientCache × Bool) :=
  if uri = "" then
    .error .missingUri
  else if !strStartsWith uri "mongodb+srv://" && !strStartsWith uri "mongodb://" then
    .error .badScheme
  else
    match lookupEntry st.entries uri with
    | some pid => .ok (pid, st, false)
    | none =>
      let entries₀ :=
        if MAX_CACHED_CLIENTS ≤ st.entries.length then st.entries.tail
        else st.entries
      let pid := st.nextId
      .ok (pid, ⟨entries₀ ++ [(uri, pid)], pid + 1⟩, true)

/-- The syntactic gate of lines 10-20 as a single predicate: a non-empty
string starting with `mongodb+srv://` or `mongodb://`. -/
def validUri (uri : String) : Bool :=
  (uri != "") && (strStartsWith uri "mongodb+srv://" || strStartsWith uri "mongodb://")

/-- Keys currently in the cache, in insertion order. -/
def keysOf (st : ClientCache) : List String :=
  st.entries.map Prod.fst

/-- The cache state after one `getClientForUri` call: unchanged when the
call throws (the throw happens before any cache mutation). -/
def stepAcquire (st : ClientCache) (uri : String) : ClientCache :=
  match getClientForUri st uri with
  | .ok (_, st', _) => st'
  | .error _ => st

/-- The cache state after a sequence of `getClientForUri` calls. -/
def runAcquires : ClientCache → List String → ClientCache
  | st, [] => st
  | st, k :: ks => runAcquires (stepAcquire st k) ks

/-- Cache states reachable from server startup by any sequence of
`getClientForUri` calls.  The handlers mutate the cache only through
`getClientForUri`, and a throwing call leaves the cache untouched, so these
are exactly the states the running server can be in. -/
inductive Reachable : ClientCache → Prop where
  | init : Reachable initCache
  | step {st : ClientCache} {uri : String} {pid : Nat} {st' : ClientCache}
      {b : Bool} (h : Reachable st)
      (hstep : getClientForUri st uri = .ok (pid, st', b)) : Reachable st'

/-- JSON values, as far as the handlers inspect them (request-body fields
and backend results). -/
inductive Json where
  | null
  | bool (b : Bool)
  | num (n : Int)
  | str (s : String)
  | arr (elems : List Json)
  | obj (fields : List (String × Json))
deriving Repr

/-- JavaScript truthiness of a JSON value: `null`, `false`, `0`, and `""`
are falsy; every array and object is truthy. -/
def jsTruthy : Json → Bool
  | .null => false
  | .bool b => b
  | .num n => n != 0
  | .str s => s != ""
  | .arr _ => true
  | .obj _ => true

/-- Truthiness of a possibly-absent string field of the request body
(`undefined` and `""` are falsy). -/
def truthyStr : Option String → Bool
  | none => false
  | some s => s != ""

/-- Truthiness of a possibly-absent JSON field of the request body. -/
def truthyJson : Option Json → Bool
  | none => false
  | some j => jsTruthy j

/-- What a handler's `catch (err)` reads off a thrown value: `err?.code`,
`err?.name`, `err?.message` (each possibly `undefined`). -/
structure ErrObj where
  code : Option Int
  name : Option String
  message : Option String
deriving DecidableEq, Repr

/-- The `Error` objects thrown by `getClientForUri`, as the catch block sees
them: a plain JS `Error` has no `code`, name `"Error"`, and the thrown
message. -/
def AcquireErr.toErrObj : AcquireErr → ErrObj
  | .missingUri => ⟨none, some "Error", some "Missing mongodbUri"⟩
  | .badScheme =>
      ⟨none, some "Error",
        some "mongodbUri must start with mongodb+srv:// or mongodb://"⟩

/-- Response bodies the handlers can produce. -/
inductive Body where
  | err (msg : String)
  | dupKey (code : Option Int) (message : Option String)
  | serverErr (code : Option Int) (name : Option String) (message : Option String)
  | serverErrShort (message : Option String)
  | result (payload : Json)
deriving Repr

/-- An HTTP response: status code and JSON body. -/
structure Response where
  status : Nat
  body : Body
deriving Repr

/-- The catch block shared verbatim by the `findOne`, `insertOne`,
`updateOne`, `deleteOne`, `find`, and `findOneAndUpdate` handlers
(lines 89-100, 123-134, 161-172, 193-204, 229-240, 272-283): a backend
error with numeric code `11000` becomes `409 {error:"Duplicate key", code,
message}`; anything else becomes `500 {error:"Server error", code, name,
message}`. -/
def mongoOpCatch (err : ErrObj) : Response :=
  if err.code = some 11000 then
    ⟨409, .dupKey err.code err.message⟩
  else
    ⟨500, .serverErr err.code err.name err.message⟩

/-- The catch block of the `insertMany` handler (lines 302-304): every
error becomes `500 {error:"Server error", message}` — there is no
duplicate-key branch here. -/
def insertManyCatch (err : ErrObj) : Response :=
  ⟨500, .serverErrShort err.message⟩

/-- The seven `POST /mongo/<op>` operation endpoints. -/
inductive MongoOp where
  | findOne | insertOne | updateOne | deleteOne
  | find | findOneAndUpdate | insertMany
deriving DecidableEq, Repr

/-- The catch behavior of each operation endpoint. -/
def opCatch : MongoOp → ErrObj → Response
  | .insertMany, err => insertManyCatch err
  | _, err => mongoOpCatch err

/-- Request body of `POST /mongo/findOne` as the handler destructures it
(line 78).  String-valued fields are modelled as `Option String`
(`none` = absent). -/
structure FindOneReq where
  mongodbUri : Option String
  db : Option String
  collection : Option String
  filter : Option Json

/-- Shallow embedding of the `POST /mongo/findOne` handler (lines 76-101).

`resolve pid` is the settlement of the stored connection promise `pid`
(what `await getClientForUri(...)` observes; the same promise settles the
same way every time it is awaited), and `backend pid db coll filter` is the
result of `c.db(db).collection(collection).findOne(filter)`.  Returns the
HTTP response together with the cache state afterwards; no code path
modifies the cache outside `getClientForUri`. -/
def findOneHandler (resolve : Nat → Except ErrObj Unit)
    (backend : Nat → String → String → Json → Except ErrObj Json)
    (st : ClientCache) (r : FindOneReq) : Response × ClientCache :=
  if !truthyStr r.mongodbUri || !truthyStr r.db || !truthyStr r.collection
      || !truthyJson r.filter then
    (⟨400, .err "Missing mongodbUri, db, collection, or filter"⟩, st)
  else
    match getClientForUri st (r.mongodbUri.getD "") with
    | .error e => (mongoOpCatch e.toErrObj, st)
    | .ok (pid, st', _) =>
      match resolve pid with
      | .error e => (mongoOpCatch e, st')
      | .ok _ =>
        match backend pid (r.db.getD "") (r.collection.getD "")
            (r.filter.getD .null) with
        | .error e => (mongoOpCatch e, st')
        | .ok doc => (⟨200, .result (.obj [("doc", doc)])⟩, st')

/-- Request body of `POST /mongo/find` as the handler destructures it
(line 209). -/
structure FindReq where
  mongodbUri : Option String
  db : Option String
  collection : Option String
  filter : Option Json
  options : Option Json

/-- The field-presence validation of the `find` handler (lines 210-214):
`400` when `mongodbUri` is falsy, `400` when `db` or `collection` is falsy,
otherwise pass.  `filter` and `options` are not checked. -/
def findValidation (r : FindReq) : Option Response :=
  if !truthyStr r.mongodbUri then
    some ⟨400, .err "Missing mongodbUri"⟩
  else if !truthyStr r.db || !truthyStr r.collection then
    some ⟨400, .err "Missing db or collection"⟩
  else
    none

/-- The filter the `find` handler passes to the backend: `filter || {}`
(line 220) — the empty object when `filter` is absent or falsy. -/
def findEffectiveFilter (r : FindReq) : Json :=
  match r.filter with
  | some j => if jsTruthy j then j else .obj []
  | none => .obj []

/-- Shallow embedding of the `POST /mongo/find` handler (lines 207-241).
`backend pid db coll filter options` covers the cursor pipeline of lines
217-227 (`find`, the `sort`/`limit`/`project` modifiers read from
`options`, and `toArray`). -/
def findHandler (resolve : Nat → Except ErrObj Unit)
    (backend : Nat → String → String → Json → Option Json → Except ErrObj (List Json))
    (st : ClientCache) (r : FindReq) : Response × ClientCache :=
  match findValidation r with
  | some resp => (resp, st)
  | none =>
    match getClientForUri st (r.mongodbUri.getD "") with
    | .error e => (mongoOpCatch e.toErrObj, st)
    | .ok (pid, st', _) =>
      match resolve pid with
      | .error e => (mongoOpCatch e, st')
      | .ok _ =>
        match backend pid (r.db.getD "") (r.collection.getD "")
            (findEffectiveFilter r) r.options with
        | .error e => (mongoOpCatch e, st')
        | .ok docs => (⟨200, .result (.obj [("docs", .arr docs)])⟩, st')

/-- Fifty distinct valid connection strings, used as concrete test data. -/
def fifoKeys : List String :=
  (List.range 50).map (fun i => "mongodb://host" ++ Nat.repr i)

/-- Fifty-one distinct valid connection strings, used as concrete test data. -/
def manyKeys : List String :=
  (List.range 51).map (fun i => "mongodb://node" ++ Nat.repr i)

/-- A concrete backend connection error, as the driver reports a refused
connection. -/
def connRefusedErr : ErrObj :=
  ⟨none, some "MongoServerSelectionError", some "connect ECONNREFUSED"⟩

/-- A promise-settlement assignment under which every connection attempt
fails with `connRefusedErr`. -/
def alwaysFailResolve : Nat → Except ErrObj Unit := fun _ => .error connRefusedErr

/-- A backend that answers every `findOne` with `null` (never reached in the
failing-connection scenarios). -/
def nullBackend : Nat → String → String → Json → Except ErrObj Json :=
  fun _ _ _ _ => .ok .null

/-- A promise-settlement assignment under which every connection succeeds. -/
def alwaysOkResolve : Nat → Except ErrObj Unit := fun _ => .ok ()

/-- A concrete well-formed `findOne` request whose connection string points
at an unreachable host. -/
def unreachableReq : FindOneReq :=
  ⟨some "mongodb://unreachable", some "d", some "c", some (.obj [])⟩

/-- A concrete `findOne` request whose connection string is present but uses
a non-accepted scheme. -/
def badSchemeReq : FindOneReq :=
  ⟨some "http://db.example.com", some "d", some "c", some (.obj [])⟩

/-! ## Basic lemmas about the cache operations -/

theorem validUri_spec {u : String} (h : validUri u = true) :
    u ≠ "" ∧
      (!strStartsWith u "mongodb+srv://" && !strStartsWith u "mongodb://") = false := by
  unfold validUri at h
  constructor
  · intro he
    subst he
    simp at h
  · cases ha : strStartsWith u "mongodb+srv://" with
    | true => simp [ha]
    | false =>
      cases hb : strStartsWith u "mongodb://" with
      | true => simp [hb]
      | false => rw [ha, hb] at h; simp at h

theorem lookupEntry_eq_none_iff {l : List (String × Nat)} {k : String} :
    lookupEntry l k = none ↔ k ∉ l.map Prod.fst := by
  induction l with
  | nil => simp [lookupEntry]
  | cons e rest ih =>
    obtain ⟨k', v⟩ := e
    by_cases hk : k' = k
    · subst hk
      simp [lookupEntry]
    · simp [lookupEntry, hk, ih, Ne.symm hk]

theorem lookupEntry_append_of_none {l₁ l₂ : List (String × Nat)} {k : String}
    (h : lookupEntry l₁ k = none) :
    lookupEntry (l₁ ++ l₂) k = lookupEntry l₂ k := by
  induction l₁ with
  | nil => simp
  | cons e rest ih =>
    obtain ⟨k', v⟩ := e
    by_cases hk : k' = k
    · simp [lookupEntry, hk] at h
    · simp [lookupEntry, hk] at h ⊢
      exact ih h

theorem lookupEntry_tail_of_none {l : List (String × Nat)} {k : String}
    (h : lookupEntry l k = none) : lookupEntry l.tail k = none := by
  cases l with
  | nil => simp [lookupEntry]
  | cons e rest =>
    obtain ⟨k', v⟩ := e
    by_cases hk : k' = k
    · simp [lookupEntry, hk] at h
    · simpa [lookupEntry, hk] using h

theorem getClientForUri_hit {st : ClientCache} {k : String} {pid : Nat}
    (hv : validUri k = true) (hl : lookupEntry st.entries k = some pid) :
    getClientForUri st k = .ok (pid, st, false) := by
  obtain ⟨h1, h2⟩ := validUri_spec hv
  unfold getClientForUri
  rw [if_neg h1, h2]
  simp [hl]

theorem getClientForUri_miss {st : ClientCache} {k : String}
    (hv : validUri k = true) (hl : lookupEntry st.entries k = none) :
    getClientForUri st k =
      .ok (st.nextId,
        ⟨(if MAX_CACHED_CLIENTS ≤ st.entries.length then st.entries.tail
          else st.entries) ++ [(k, st.nextId)], st.nextId + 1⟩, true) := by
  obtain ⟨h1, h2⟩ := validUri_spec hv
  unfold getClientForUri
  rw [if_neg h1, h2]
  simp [hl]

theorem getClientForUri_ok_valid {st st1 : ClientCache} {k : String} {pid : Nat}
    {b : Bool} (h : getClientForUri st k = .ok (pid, st1, b)) :
    validUri k = true := by
  unfold getClientForUri at h
  by_cases h1 : k = ""
  · rw [if_pos h1] at h
    exact absurd h (by simp)
  · rw [if_neg h1] at h
    unfold validUri
    cases ha : strStartsWith k "mongodb+srv://" with
    | true => simp [h1, ha]
    | false =>
      cases hb : strStartsWith k "mongodb://" with
      | true => simp [h1, hb]
      | false =>
        rw [ha, hb] at h
        simp at h

theorem getClientForUri_ok_cases {st st1 : ClientCache} {k : String} {pid : Nat}
    {b : Bool} (h : getClientForUri st k = .ok (pid, st1, b)) :
    (lookupEntry st.entries k = some pid ∧ st1 = st ∧ b = false) ∨
      (lookupEntry st.entries k = none ∧ pid = st.nextId ∧
        st1 = ⟨(if MAX_CACHED_CLIENTS ≤ st.entries.length then st.entries.tail
          else st.entries) ++ [(k, st.nextId)], st.nextId + 1⟩ ∧ b = true) := by
  have hv := getClientForUri_ok_valid h
  cases hl : lookupEntry st.entries k with
  | some q =>
    rw [getClientForUri_hit hv hl] at h
    have h' : q = pid ∧ st = st1 ∧ false = b := by
      have := Except.ok.inj h
      simpa [Prod.mk.injEq] using this
    obtain ⟨h1, h2, h3⟩ := h'
    subst h1
    subst h2
    subst h3
    exact Or.inl ⟨rfl, rfl, rfl⟩
  | none =>
    rw [getClientForUri_miss hv hl] at h
    have h' : st.nextId = pid ∧
        (⟨(if MAX_CACHED_CLIENTS ≤ st.entries.length then st.entries.tail
          else st.entries) ++ [(k, st.nextId)], st.nextId + 1⟩ : ClientCache) = st1 ∧
        true = b := by
      have := Except.ok.inj h
      simpa [Prod.mk.injEq] using this
    obtain ⟨h1, h2, h3⟩ := h'
    subst h2
    subst h3
    exact Or.inr ⟨rfl, h1.symm, rfl, rfl⟩

theorem getClientForUri_ok_lookup {st st1 : ClientCache} {k : String} {pid : Nat}
    {b : Bool} (h : getClientForUri st k = .ok (pid, st1, b)) :
    lookupEntry st1.entries k = some pid := by
  rcases getClientForUri_ok_cases h with ⟨hl, hst, -⟩ | ⟨hl, hpid, hst, -⟩
  · subst hst; exact hl
  · subst hst hpid
    have hleft : lookupEntry
        (if MAX_CACHED_CLIENTS ≤ st.entries.length then st.entries.tail
          else st.entries) k = none := by
      split
      · exact lookupEntry_tail_of_none hl
      · exact hl
    rw [lookupEntry_append_of_none hleft]
    simp [lookupEntry]

/-! ## Lemmas about sequences of acquires -/

theorem keysOf_length (st : ClientCache) : (keysOf st).length = st.entries.length :=
  List.length_map _ _

theorem lookupEntry_isSome_of_mem {st : ClientCache} {k : String}
    (h : k ∈ keysOf st) : ∃ pid, lookupEntry st.entries k = some pid := by
  cases hl : lookupEntry st.entries k with
  | none => exact absurd (lookupEntry_eq_none_iff.mp hl) (by simpa [keysOf] using h)
  | some pid => exact ⟨pid, rfl⟩

theorem stepAcquire_present {st : ClientCache} {k : String}
    (hv : validUri k = true) (hmem : k ∈ keysOf st) :
    stepAcquire st k = st := by
  obtain ⟨pid, hl⟩ := lookupEntry_isSome_of_mem hmem
  unfold stepAcquire
  rw [getClientForUri_hit hv hl]

theorem runAcquires_present {accs : List String} :
    ∀ st : ClientCache, (∀ a ∈ accs, validUri a = true ∧ a ∈ keysOf st) →
      runAcquires st accs = st := by
  induction accs with
  | nil => intro st _; rfl
  | cons a rest ih =>
    intro st h
    obtain ⟨hv, hmem⟩ := h a (by simp)
    unfold runAcquires
    rw [stepAcquire_present hv hmem]
    exact ih st fun x hx => h x (by simp [hx])

theorem stepAcquire_fresh {st : ClientCache} {k : String}
    (hv : validUri k = true) (hk : k ∉ keysOf st) :
    (stepAcquire st k).entries =
        (if MAX_CACHED_CLIENTS ≤ st.entries.length then st.entries.tail
          else st.entries) ++ [(k, st.nextId)] ∧
      (stepAcquire st k).nextId = st.nextId + 1 := by
  have hl : lookupEntry st.entries k = none :=
    lookupEntry_eq_none_iff.mpr (by simpa [keysOf] using hk)
  unfold stepAcquire
  rw [getClientForUri_miss hv hl]
  exact ⟨rfl, rfl⟩

theorem keysOf_stepAcquire_fresh {st : ClientCache} {k : String}
    (hv : validUri k = true) (hk : k ∉ keysOf st) :
    keysOf (stepAcquire st k) =
      (if MAX_CACHED_CLIENTS ≤ st.entries.length then (keysOf st).tail
        else keysOf st) ++ [k] := by
  obtain ⟨he, -⟩ := stepAcquire_fresh hv hk
  unfold keysOf
  rw [he, List.map_append]
  congr 1
  split
  · exact (List.map_tail Prod.fst st.entries).symm ▸ rfl
  · rfl

theorem runAcquires_fresh {ks : List String} :
    ∀ st : ClientCache, ks.Nodup → (∀ k ∈ ks, validUri k = true) →
      (∀ k ∈ ks, k ∉ keysOf st) → st.entries.length ≤ MAX_CACHED_CLIENTS →
      keysOf (runAcquires st ks) =
        (keysOf st ++ ks).drop (st.entries.length + ks.length - MAX_CACHED_CLIENTS) := by
  induction ks with
  | nil =>
    intro st _ _ _ hle
    simp only [runAcquires, List.append_nil, List.length_nil, Nat.add_zero]
    rw [Nat.sub_eq_zero_of_le hle, List.drop_zero]
  | cons k rest ih =>
    intro st hnd hv hfresh hle
    have hvk : validUri k = true := hv k (by simp)
    have hkfresh : k ∉ keysOf st := hfresh k (by simp)
    have hkeys := keysOf_stepAcquire_fresh hvk hkfresh
    obtain ⟨hent, -⟩ := stepAcquire_fresh hvk hkfresh
    have hnd' : rest.Nodup := (List.nodup_cons.mp hnd).2
    have hknotin : k ∉ rest := (List.nodup_cons.mp hnd).1
    have hv' : ∀ x ∈ rest, validUri x = true := fun x hx => hv x (by simp [hx])
    unfold runAcquires
    by_cases hfull : MAX_CACHED_CLIENTS ≤ st.entries.length
    · -- the cache is full: the oldest entry is evicted before inserting k
      have hlen50 : st.entries.length = MAX_CACHED_CLIENTS :=
        Nat.le_antisymm hle hfull
      obtain ⟨e₁, es, hcons⟩ : ∃ e₁ es, st.entries = e₁ :: es := by
        cases hc : st.entries with
        | nil => rw [hc] at hlen50; simp [MAX_CACHED_CLIENTS] at hlen50
        | cons e₁ es => exact ⟨e₁, es, rfl⟩
      have hkeys' : keysOf (stepAcquire st k) = (keysOf st).tail ++ [k] := by
        rw [hkeys, if_pos hfull]
      have hlen' : (stepAcquire st k).entries.length = MAX_CACHED_CLIENTS := by
        rw [hent, if_pos hfull, List.length_append, hcons]
        simp [hlen50.symm, hcons]
      have hfresh' : ∀ x ∈ rest, x ∉ keysOf (stepAcquire st k) := by
        intro x hx
        rw [hkeys']
        simp only [List.mem_append, List.mem_singleton]
        rintro (hxt | rfl)
        · exact hfresh x (by simp [hx]) (List.mem_of_mem_tail hxt)
        · exact hknotin hx
      have := ih (stepAcquire st k) hnd' hv' hfresh' (le_of_eq hlen')
      rw [this, hkeys', hlen', hlen50]
      have harith : MAX_CACHED_CLIENTS + rest.length - MAX_CACHED_CLIENTS
          = rest.length := by omega
      have harith2 : MAX_CACHED_CLIENTS + (k :: rest).length - MAX_CACHED_CLIENTS
          = rest.length + 1 := by
        simp only [List.length_cons]
        omega
      rw [harith, harith2]
      have hkcons : keysOf st = e₁.1 :: es.map Prod.fst := by
        rw [keysOf, hcons, List.map_cons]
      rw [hkcons]
      simp only [List.tail_cons, List.cons_append, List.drop_succ_cons,
        List.append_assoc, List.singleton_append]
      simp
    · -- the cache has room: k is appended without eviction
      have hkeys' : keysOf (stepAcquire st k) = keysOf st ++ [k] := by
        rw [hkeys, if_neg hfull]
      have hlen' : (stepAcquire st k).entries.length = st.entries.length + 1 := by
        rw [hent, if_neg hfull, List.length_append]
        rfl
      have hle' : (stepAcquire st k).entries.length ≤ MAX_CACHED_CLIENTS := by
        omega
      have hfresh' : ∀ x ∈ rest, x ∉ keysOf (stepAcquire st k) := by
        intro x hx
        rw [hkeys']
        simp only [List.mem_append, List.mem_singleton]
        rintro (hxs | rfl)
        · exact hfresh x (by simp [hx]) hxs
        · exact hknotin hx
      have := ih (stepAcquire st k) hnd' hv' hfresh' hle'
      rw [this, hkeys', hlen']
      have harith : st.entries.length + 1 + rest.length
          = st.entries.length + (k :: rest).length := by
        simp only [List.length_cons]
        omega
      rw [harith, List.append_assoc, List.singleton_append]

theorem getClientForUri_ok_length {st st1 : ClientCache} {k : String} {pid : Nat}
    {b : Bool} (h : getClientForUri st k = .ok (pid, st1, b))
    (hle : st.entries.length ≤ MAX_CACHED_CLIENTS) :
    st1.entries.length ≤ MAX_CACHED_CLIENTS := by
  rcases getClientForUri_ok_cases h with ⟨-, hst, -⟩ | ⟨-, -, hst, -⟩
  · subst hst; exact hle
  · subst hst
    simp only [List.length_append, List.length_singleton]
    have hM : MAX_CACHED_CLIENTS = 50 := rfl
    have htail : st.entries.tail.length = st.entries.length - 1 :=
      List.length_tail _
    by_cases hfull : MAX_CACHED_CLIENTS ≤ st.entries.length
    · rw [if_pos hfull]
      omega
    · rw [if_neg hfull]
      omega

theorem getClientForUri_ok_keysValid {st st1 : ClientCache} {k : String} {pid : Nat}
    {b : Bool} (h : getClientForUri st k = .ok (pid, st1, b))
    (hall : ∀ e ∈ st.entries, validUri e.1 = true) :
    ∀ e ∈ st1.entries, validUri e.1 = true := by
  have hv := getClientForUri_ok_valid h
  rcases getClientForUri_ok_cases h with ⟨-, hst, -⟩ | ⟨-, -, hst, -⟩
  · subst hst; exact hall
  · subst hst
    intro e he
    simp only [List.mem_append, List.mem_singleton] at he
    rcases he with he | rfl
    · have : e ∈ st.entries := by
        revert he
        split
        · exact fun he => List.mem_of_mem_tail he
        · exact fun he => he
      exact hall e this
    · exact hv

theorem mongoOpCatch_status_ne_400 (e : ErrObj) : (mongoOpCatch e).status ≠ 400 := by
  unfold mongoOpCatch
  split
  · intro hc
    have h9 : (409 : Nat) = 400 := hc
    exact absurd h9 (by decide)
  · intro hc
    have h5 : (500 : Nat) = 400 := hc
    exact absurd h5 (by decide)

/-! ## Claims -/

/-- C3: at every point between operations the cache holds at most
`MAX_CACHED_CLIENTS = 50` entries — every reachable cache state satisfies
the bound, because an insertion into a full cache first evicts an entry. -/
theorem cache_size_bounded {st : ClientCache} (h : Reachable st) :
    st.entries.length ≤ MAX_CACHED_CLIENTS ∧ MAX_CACHED_CLIENTS = 50 := by
  refine ⟨?_, rfl⟩
  induction h with
  | init => simp [initCache]
  | step hr hstep ih => exact getClientForUri_ok_length hstep ih

theorem cache_size_bounded_witness :
    (⟨[("mongodb://w3", 0)], 1⟩ : ClientCache).entries.length ≤ MAX_CACHED_CLIENTS
      ∧ MAX_CACHED_CLIENTS = 50 :=
  cache_size_bounded
    (@Reachable.step initCache "mongodb://w3" 0 ⟨[("mongodb://w3", 0)], 1⟩ true
      Reachable.init rfl)

/-- C10: every key ever present in a reachable cache state is a non-empty
string starting with `mongodb://` or `mongodb+srv://` — the syntactic gate
runs before the lookup and the insertion, so no invalid key is ever
inserted, and every `getClientForUri` call preserves the predicate. -/
theorem cache_keys_all_valid {st : ClientCache} (h : Reachable st) :
    ∀ e ∈ st.entries, e.1 ≠ "" ∧
      (strStartsWith e.1 "mongodb://" || strStartsWith e.1 "mongodb+srv://") = true := by
  have hall : ∀ e ∈ st.entries, validUri e.1 = true := by
    induction h with
    | init => simp [initCache]
    | step hr hstep ih => exact getClientForUri_ok_keysValid hstep ih
  intro e he
  obtain ⟨h1, h2⟩ := validUri_spec (hall e he)
  refine ⟨h1, ?_⟩
  cases ha : strStartsWith e.1 "mongodb+srv://" with
  | true => simp [ha]
  | false =>
    cases hb : strStartsWith e.1 "mongodb://" with
    | true => simp [hb]
    | false => rw [ha, hb] at h2; simp at h2

theorem cache_keys_all_valid_witness :
    ("mongodb+srv://w10", 0).1 ≠ "" ∧
      (strStartsWith ("mongodb+srv://w10", 0).1 "mongodb://" ||
        strStartsWith ("mongodb+srv://w10", 0).1 "mongodb+srv://") = true :=
  cache_keys_all_valid
    (@Reachable.step initCache "mongodb+srv://w10" 0 ⟨[("mongodb+srv://w10", 0)], 1⟩
      true Reachable.init rfl)
    ("mongodb+srv://w10", 0) (by simp)

/-- C5: acquiring `N > 50` pairwise-distinct valid keys from the empty cache
leaves exactly the 50 most-recently-inserted keys, in insertion order: the
first `N - 50` keys have been evicted and the cache is full. -/
theorem cache_keeps_most_recent {ks : List String}
    (hN : MAX_CACHED_CLIENTS < ks.length) (hnd : ks.Nodup)
    (hv : ∀ k ∈ ks, validUri k = true) :
    keysOf (runAcquires initCache ks) = ks.drop (ks.length - MAX_CACHED_CLIENTS) ∧
    (runAcquires initCache ks).entries.length = MAX_CACHED_CLIENTS := by
  have hfresh : ∀ k ∈ ks, k ∉ keysOf initCache := by
    intro k _
    simp [initCache, keysOf]
  have hle : initCache.entries.length ≤ MAX_CACHED_CLIENTS := by
    simp [initCache]
  have h := runAcquires_fresh initCache hnd hv hfresh hle
  have hinit : initCache.entries.length = 0 := rfl
  have hkinit : keysOf initCache = [] := rfl
  rw [hinit, hkinit, Nat.zero_add, List.nil_append] at h
  refine ⟨h, ?_⟩
  have := keysOf_length (runAcquires initCache ks)
  rw [h] at this
  rw [← this, List.length_drop]
  omega

theorem cache_keeps_most_recent_witness :
    MAX_CACHED_CLIENTS < manyKeys.length ∧
    keysOf (runAcquires initCache manyKeys) =
      manyKeys.drop (manyKeys.length - MAX_CACHED_CLIENTS) :=
  ⟨by decide, (cache_keeps_most_recent (by decide) (by decide) (by decide)).1⟩

/-- C4: eviction is strictly FIFO by insertion order.  Fill the empty cache
with 50 distinct valid keys `ks`; then run any sequence of repeat accesses
to keys already in the cache (which changes nothing — accessed entries are
not moved to a newer position); then acquiring a fresh valid key evicts
exactly the oldest-inserted key `ks.head`, leaving `ks.tail ++ [knew]`. -/
theorem eviction_fifo {ks accs : List String} {knew : String}
    (hlen : ks.length = MAX_CACHED_CLIENTS) (hnd : ks.Nodup)
    (hv : ∀ k ∈ ks, validUri k = true)
    (hacc : ∀ a ∈ accs, a ∈ ks)
    (hvnew : validUri knew = true) (hfresh : knew ∉ ks) :
    keysOf (runAcquires initCache ks) = ks ∧
    runAcquires (runAcquires initCache ks) accs = runAcquires initCache ks ∧
    keysOf (stepAcquire (runAcquires (runAcquires initCache ks) accs) knew) =
      ks.tail ++ [knew] := by
  have hfreshInit : ∀ k ∈ ks, k ∉ keysOf initCache := by
    intro k _
    simp [initCache, keysOf]
  have hle : initCache.entries.length ≤ MAX_CACHED_CLIENTS := by
    simp [initCache]
  have h := runAcquires_fresh initCache hnd hv hfreshInit hle
  have hinit : initCache.entries.length = 0 := rfl
  have hkinit : keysOf initCache = [] := rfl
  rw [hinit, hkinit, Nat.zero_add, List.nil_append, hlen, Nat.sub_self,
    List.drop_zero] at h
  refine ⟨h, ?_, ?_⟩
  · exact runAcquires_present _ fun a ha =>
      ⟨hv a (hacc a ha), by rw [h]; exact hacc a ha⟩
  · have hpres : runAcquires (runAcquires initCache ks) accs
        = runAcquires initCache ks :=
      runAcquires_present _ fun a ha =>
        ⟨hv a (hacc a ha), by rw [h]; exact hacc a ha⟩
    rw [hpres]
    have hlen1 : (runAcquires initCache ks).entries.length = MAX_CACHED_CLIENTS := by
      have := keysOf_length (runAcquires initCache ks)
      rw [h, hlen] at this
      omega
    have hknot : knew ∉ keysOf (runAcquires initCache ks) := by
      rw [h]; exact hfresh
    rw [keysOf_stepAcquire_fresh hvnew hknot, if_pos (le_of_eq hlen1.symm), h]

theorem eviction_fifo_witness :
    fifoKeys.length = MAX_CACHED_CLIENTS ∧
    keysOf (stepAcquire (runAcquires (runAcquires initCache fifoKeys)
        ["mongodb://host1", "mongodb://host2", "mongodb://host1"]) "mongodb+srv://new") =
      fifoKeys.tail ++ ["mongodb+srv://new"] :=
  ⟨by decide,
    (eviction_fifo (by decide) (by decide) (by decide) (by decide) (by decide)
      (by decide)).2.2⟩

/-- C6: acquiring a key twice in a row returns the same cached promise both
times: whatever the first call returned, the second call is a cache hit that
returns the same promise id, leaves the cache unchanged, and starts no new
backend connection (`started = false`). -/
theorem acquire_idempotent {st st1 : ClientCache} {k : String} {pid : Nat}
    {b : Bool} (h : getClientForUri st k = .ok (pid, st1, b)) :
    getClientForUri st1 k = .ok (pid, st1, false) :=
  getClientForUri_hit (getClientForUri_ok_valid h) (getClientForUri_ok_lookup h)

theorem acquire_idempotent_witness :
    getClientForUri (⟨[("mongodb://w6", 0)], 1⟩ : ClientCache) "mongodb://w6" =
      .ok (0, ⟨[("mongodb://w6", 0)], 1⟩, false) :=
  @acquire_idempotent initCache ⟨[("mongodb://w6", 0)], 1⟩ "mongodb://w6" 0 true rfl

/-- C8: for an unseen valid key, the pending-promise placeholder is stored
synchronously at insertion time, so two logically-concurrent acquires of the
key start exactly one connection attempt: the first call allocates the one
new promise id and stores it, and the second call (in the only possible
interleaving — `getClientForUri` contains no `await`) finds that placeholder
and starts no attempt of its own. -/
theorem concurrent_single_attempt {st : ClientCache} {k : String}
    (hv : validUri k = true) (habs : lookupEntry st.entries k = none) :
    ∃ st1 : ClientCache,
      getClientForUri st k = .ok (st.nextId, st1, true) ∧
      getClientForUri st1 k = .ok (st.nextId, st1, false) ∧
      st1.nextId = st.nextId + 1 ∧
      lookupEntry st1.entries k = some st.nextId := by
  have hmiss := getClientForUri_miss hv habs
  refine ⟨_, hmiss, ?_, rfl, getClientForUri_ok_lookup hmiss⟩
  exact getClientForUri_hit hv (getClientForUri_ok_lookup hmiss)

theorem concurrent_single_attempt_witness :
    validUri "mongodb+srv://w8" = true ∧
    lookupEntry initCache.entries "mongodb+srv://w8" = none ∧
    ∃ st1 : ClientCache,
      getClientForUri initCache "mongodb+srv://w8" = .ok (initCache.nextId, st1, true) ∧
      getClientForUri st1 "mongodb+srv://w8" = .ok (initCache.nextId, st1, false) ∧
      st1.nextId = initCache.nextId + 1 ∧
      lookupEntry st1.entries "mongodb+srv://w8" = some initCache.nextId :=
  ⟨rfl, rfl, concurrent_single_attempt rfl rfl⟩

/-- C2 (counterexample): the `insertMany` endpoint does not get the
duplicate-key special case — a backend error with code `11000` there is
answered with status `500`, not `409`. -/
theorem insertMany_dup_key_500 :
    (opCatch .insertMany ⟨some 11000, some "MongoBulkWriteError",
      some "E11000 duplicate key error"⟩).status = 500 ∧
    (opCatch .insertMany ⟨some 11000, some "MongoBulkWriteError",
      some "E11000 duplicate key error"⟩).status ≠ 409 :=
  ⟨rfl, by decide⟩

/-- C2 (amended): for the six endpoints `findOne`, `insertOne`, `updateOne`,
`deleteOne`, `find`, `findOneAndUpdate`, a backend error with numeric code
`11000` is answered `409 {error:"Duplicate key", code, message}` and any
other backend error `500`; the `insertMany` endpoint instead answers `500
{error:"Server error", message}` for every backend error, including
duplicate-key ones. -/
theorem opCatch_behavior (op : MongoOp) (err : ErrObj) :
    (op ≠ .insertMany → err.code = some 11000 →
      opCatch op err = ⟨409, .dupKey (some 11000) err.message⟩) ∧
    (op ≠ .insertMany → err.code ≠ some 11000 → (opCatch op err).status = 500) ∧
    (op = .insertMany → opCatch op err = ⟨500, .serverErrShort err.message⟩) := by
  refine ⟨?_, ?_, ?_⟩
  · intro hne hc
    cases op with
    | insertMany => exact absurd rfl hne
    | findOne => simp [opCatch, mongoOpCatch, hc]
    | insertOne => simp [opCatch, mongoOpCatch, hc]
    | updateOne => simp [opCatch, mongoOpCatch, hc]
    | deleteOne => simp [opCatch, mongoOpCatch, hc]
    | find => simp [opCatch, mongoOpCatch, hc]
    | findOneAndUpdate => simp [opCatch, mongoOpCatch, hc]
  · intro hne hc
    cases op with
    | insertMany => exact absurd rfl hne
    | findOne => simp [opCatch, mongoOpCatch, hc]
    | insertOne => simp [opCatch, mongoOpCatch, hc]
    | updateOne => simp [opCatch, mongoOpCatch, hc]
    | deleteOne => simp [opCatch, mongoOpCatch, hc]
    | find => simp [opCatch, mongoOpCatch, hc]
    | findOneAndUpdate => simp [opCatch, mongoOpCatch, hc]
  · rintro rfl
    rfl

theorem opCatch_behavior_witness :
    (MongoOp.insertOne ≠ MongoOp.insertMany) ∧
    opCatch .insertOne ⟨some 11000, some "MongoServerError", some "E11000"⟩ =
      ⟨409, .dupKey (some 11000) (some "E11000")⟩ :=
  ⟨by decide,
    (opCatch_behavior .insertOne ⟨some 11000, some "MongoServerError", some "E11000"⟩).1
      (by decide) rfl⟩

/-- C7 (counterexample): a `findOne` request whose connection string is
present but malformed (scheme `http://`) is answered `500`, not `400`: the
scheme error thrown by `getClientForUri` lands in the generic catch block,
whose non-11000 branch produces `500 Server error`. -/
theorem malformed_uri_not_400 :
    (findOneHandler alwaysOkResolve nullBackend initCache badSchemeReq).1.status = 500 ∧
    (findOneHandler alwaysOkResolve nullBackend initCache badSchemeReq).1.status ≠ 400 :=
  ⟨rfl, by decide⟩

/-- C7 (amended): a request whose connection string is present (truthy) but
does not start with an accepted scheme fails the syntactic gate, and the
thrown error is answered with HTTP `500` (the generic server-error branch of
the catch block — not `400`, which is produced only for missing fields)
carrying the scheme message; no cache entry is created (the cache is
returned unchanged). -/
theorem malformed_uri_500 {resolve : Nat → Except ErrObj Unit}
    {backend : Nat → String → String → Json → Except ErrObj Json}
    {st : ClientCache} {r : FindOneReq} {u : String}
    (hu : r.mongodbUri = some u) (hne : u ≠ "")
    (ha : strStartsWith u "mongodb+srv://" = false)
    (hb : strStartsWith u "mongodb://" = false)
    (hdb : truthyStr r.db = true) (hcoll : truthyStr r.collection = true)
    (hfil : truthyJson r.filter = true) :
    findOneHandler resolve backend st r =
      (⟨500, .serverErr none (some "Error")
        (some "mongodbUri must start with mongodb+srv:// or mongodb://")⟩, st) := by
  have huri : truthyStr r.mongodbUri = true := by
    rw [hu]
    simpa [truthyStr] using hne
  have hgetd : r.mongodbUri.getD "" = u := by rw [hu]; rfl
  have hget : getClientForUri st u = .error .badScheme := by
    unfold getClientForUri
    rw [if_neg hne, ha, hb]
    rfl
  unfold findOneHandler
  rw [huri, hdb, hcoll, hfil, hgetd, hget]
  rfl

theorem malformed_uri_500_witness :
    strStartsWith "http://db.example.com" "mongodb://" = false ∧
    findOneHandler alwaysOkResolve nullBackend initCache badSchemeReq =
      (⟨500, .serverErr none (some "Error")
        (some "mongodbUri must start with mongodb+srv:// or mongodb://")⟩, initCache) :=
  ⟨rfl, malformed_uri_500 rfl (by decide) rfl rfl rfl rfl rfl⟩

/-- C9: for `POST /mongo/find` the `filter` field is optional — with
`mongodbUri`, `db`, and `collection` present (truthy) and `filter` absent,
validation passes (the handler never answers `400`, whatever the connection
and backend do) and the backend query runs with the empty filter; while a
missing (or empty) `db` or `collection` is still answered
`400 Missing db or collection`. -/
theorem find_filter_optional (st : ClientCache) (r : FindReq) :
    (truthyStr r.mongodbUri = true → truthyStr r.db = true →
      truthyStr r.collection = true → r.filter = none →
      findValidation r = none ∧ findEffectiveFilter r = .obj [] ∧
        ∀ (resolve : Nat → Except ErrObj Unit)
          (backend : Nat → String → String → Json → Option Json →
            Except ErrObj (List Json)),
          (findHandler resolve backend st r).1.status ≠ 400) ∧
    (truthyStr r.mongodbUri = true →
      (truthyStr r.db = false ∨ truthyStr r.collection = false) →
      findValidation r = some ⟨400, .err "Missing db or collection"⟩) := by
  constructor
  · intro huri hdb hcoll hfil
    have hval : findValidation r = none := by
      unfold findValidation
      rw [huri, hdb, hcoll]
      rfl
    refine ⟨hval, ?_, ?_⟩
    · unfold findEffectiveFilter
      rw [hfil]
    · intro resolve backend
      unfold findHandler
      rw [hval]
      dsimp only
      cases hg : getClientForUri st (r.mongodbUri.getD "") with
      | error e => exact mongoOpCatch_status_ne_400 _
      | ok v =>
        obtain ⟨pid, st', b⟩ := v
        dsimp only
        cases hr : resolve pid with
        | error e => exact mongoOpCatch_status_ne_400 _
        | ok u =>
          dsimp only
          cases hbk : backend pid (r.db.getD "") (r.collection.getD "")
              (findEffectiveFilter r) r.options with
          | error e => exact mongoOpCatch_status_ne_400 _
          | ok docs =>
            intro hc
            have h2 : (200 : Nat) = 400 := hc
            exact absurd h2 (by decide)
  · intro huri hmiss
    unfold findValidation
    rw [huri]
    rcases hmiss with hdb | hcoll
    · rw [hdb]
      rfl
    · rw [hcoll]
      cases hdb : truthyStr r.db <;> rfl

theorem find_filter_optional_witness :
    findValidation ⟨some "mongodb://w9", some "d", some "c", none, none⟩ = none ∧
    findEffectiveFilter ⟨some "mongodb://w9", some "d", some "c", none, none⟩ =
      .obj [] :=
  ⟨((find_filter_optional initCache
      ⟨some "mongodb://w9", some "d", some "c", none, none⟩).1 rfl rfl rfl rfl).1,
   ((find_filter_optional initCache
      ⟨some "mongodb://w9", some "d", some "c", none, none⟩).1 rfl rfl rfl rfl).2.1⟩

/-- C1 (counterexample): after a `findOne` request whose connection attempt
fails, the key is still present in the cache (promise id `0`), no entry was
removed, and a second identical request allocates no new connection attempt
(`nextId` stays `1`) — it replays the stored rejected promise and returns
the very same error response with the cache unchanged. -/
theorem failed_placeholder_persists_cex :
    lookupEntry
        (findOneHandler alwaysFailResolve nullBackend initCache unreachableReq).2.entries
        "mongodb://unreachable" = some 0 ∧
    (findOneHandler alwaysFailResolve nullBackend initCache unreachableReq).2.nextId = 1 ∧
    findOneHandler alwaysFailResolve nullBackend
        (findOneHandler alwaysFailResolve nullBackend initCache unreachableReq).2
        unreachableReq =
      (mongoOpCatch connRefusedErr,
        (findOneHandler alwaysFailResolve nullBackend initCache unreachableReq).2) :=
  ⟨rfl, rfl, rfl⟩

/-- C1 (amended): if connection establishment for a key fails, the failed
placeholder entry is NOT removed from the cache — the key stays present,
mapped to the same rejected promise.  The failure is surfaced to the caller
through the catch block, and a subsequent request for the same key returns
the stored placeholder instead of starting a fresh connection attempt: it
replays the stored failure (same error response) and leaves the cache,
including its attempt counter, unchanged. -/
theorem failed_placeholder_persists {resolve : Nat → Except ErrObj Unit}
    {backend : Nat → String → String → Json → Except ErrObj Json}
    {st : ClientCache} {r : FindOneReq} {u : String} {e : ErrObj}
    (hu : r.mongodbUri = some u) (hv : validUri u = true)
    (hdb : truthyStr r.db = true) (hcoll : truthyStr r.collection = true)
    (hfil : truthyJson r.filter = true)
    (habs : lookupEntry st.entries u = none)
    (hfail : resolve st.nextId = .error e) :
    (findOneHandler resolve backend st r).1 = mongoOpCatch e ∧
    lookupEntry (findOneHandler resolve backend st r).2.entries u = some st.nextId ∧
    (findOneHandler resolve backend st r).2.nextId = st.nextId + 1 ∧
    findOneHandler resolve backend (findOneHandler resolve backend st r).2 r =
      (mongoOpCatch e, (findOneHandler resolve backend st r).2) := by
  have huri : truthyStr r.mongodbUri = true := by
    rw [hu]
    simpa [truthyStr] using (validUri_spec hv).1
  have hgetd : r.mongodbUri.getD "" = u := by rw [hu]; rfl
  have hmiss := getClientForUri_miss hv habs
  have hlook := getClientForUri_ok_lookup hmiss
  have hfirst : findOneHandler resolve backend st r =
      (mongoOpCatch e,
        ⟨(if MAX_CACHED_CLIENTS ≤ st.entries.length then st.entries.tail
          else st.entries) ++ [(u, st.nextId)], st.nextId + 1⟩) := by
    unfold findOneHandler
    rw [huri, hdb, hcoll, hfil, hgetd, hmiss]
    dsimp only
    rw [hfail]
    rfl
  refine ⟨?_, ?_, ?_, ?_⟩
  · rw [hfirst]
  · rw [hfirst]
    exact hlook
  · rw [hfirst]
  · rw [hfirst]
    unfold findOneHandler
    rw [huri, hdb, hcoll, hfil, hgetd, getClientForUri_hit hv hlook]
    dsimp only
    rw [hfail]
    rfl

theorem failed_placeholder_persists_witness :
    validUri "mongodb://unreachable" = true ∧
    (findOneHandler alwaysFailResolve nullBackend initCache unreachableReq).1 =
      mongoOpCatch connRefusedErr ∧
    findOneHandler alwaysFailResolve nullBackend
        (findOneHandler alwaysFailResolve nullBackend initCache unreachableReq).2
        unreachableReq =
      (mongoOpCatch connRefusedErr,
        (findOneHandler alwaysFailResolve nullBackend initCache unreachableReq).2) :=
  ⟨rfl,
    (@failed_placeholder_persists alwaysFailResolve nullBackend initCache
      unreachableReq "mongodb://unreachable" connRefusedErr
      rfl rfl rfl rfl rfl rfl rfl).1,
    (@failed_placeholder_persists alwaysFailResolve nullBackend initCache
      unreachableReq "mongodb://unreachable" connRefusedErr
      rfl rfl rfl rfl rfl rfl rfl).2.2.2⟩

end MongoTest
